import Mathlib

set_option linter.unusedSectionVars false

/-!
Shallow embedding of the One Piece network-analysis program (`src/main.py`).

The program builds a character co-occurrence graph with `networkx` from a
polars dataframe of (chapter, character) rows and reports degree metrics.
We embed:

* the `networkx.Graph` fragment the program uses: an undirected graph with a
  node list and an edge list carrying an integer `weight` attribute.
  `add_edge(u, v, weight=w)` adds missing endpoints as nodes and sets
  (overwriting, per networkx semantics) the weight of the (u,v) edge to `w`;
  `G[u][v]["weight"] += d` increments an existing edge's weight;
  `G.degree(n)` is `len(adj[n]) + (1 if n in adj[n] else 0)`, so a self-loop
  contributes 2 to the degree;
* `create_data_for_character_appearance_network` (src/main.py:128-147): the
  nested loops over `unique()` chapters / `unique()` characters;
* the metric computations of `plot_degree_distribution`
  (src/main.py:167-192), with Python runtime errors (ValueError from `max()`
  on an empty sequence, ZeroDivisionError) made explicit in an `Except`;
* the join/drop steps of `main` (src/main.py:209-210).
-/

/-- A cleaned input row: one (chapter, character) appearance, as seen by the
graph builder after `main` has extracted the chapter number and dropped null
chapters. -/
structure Row where
  chapter : Int
  character : String
deriving DecidableEq, Repr

/-- The fragment of `networkx.Graph` used by the program: a list of nodes in
insertion order (Python dicts preserve insertion order) and a list of edges
with their integer `weight` attribute, one entry per unordered pair. -/
structure Graph (α : Type) where
  nodes : List α
  edges : List (α × α × Int)
deriving DecidableEq, Repr

variable {α : Type} [DecidableEq α]

/-- The unordered pairs `{a, b}` and `{u, v}` are equal (dict-key equality of
networkx edges; `a = b` degenerate pairs allowed). -/
def samePair (a b u v : α) : Prop :=
  (a = u ∧ b = v) ∨ (a = v ∧ b = u)

instance {a b u v : α} : Decidable (samePair a b u v) := by
  unfold samePair; infer_instance

/-- Weight of the edge `{u, v}` if present (`G[u][v]["weight"]`,
`none` when networkx would raise `KeyError`). -/
def lookupW : List (α × α × Int) → α → α → Option Int
  | [], _, _ => none
  | e :: rest, u, v => if samePair e.1 e.2.1 u v then some e.2.2 else lookupW rest u v

/-- `G.add_node(c)` on the node dict: insert `c` if not already present. -/
def addNodeList (ns : List α) (c : α) : List α :=
  if c ∈ ns then ns else ns ++ [c]

/-- The edge-dict part of `G.add_edge(u, v, weight=w)`: if an edge `{u, v}`
exists its `weight` attribute is overwritten with `w` (networkx updates the
attribute dict of an existing edge), otherwise a new edge is appended. -/
def setEdgeList : List (α × α × Int) → α → α → Int → List (α × α × Int)
  | [], u, v, w => [(u, v, w)]
  | e :: rest, u, v, w =>
    if samePair e.1 e.2.1 u v then (e.1, e.2.1, w) :: rest else e :: setEdgeList rest u v w

/-- `G[u][v]["weight"] += d` on the edge list (no-op when the edge is absent;
in the builder it is always preceded by `add_edge`, so the edge exists). -/
def incEdgeList : List (α × α × Int) → α → α → Int → List (α × α × Int)
  | [], _, _, _ => []
  | e :: rest, u, v, d =>
    if samePair e.1 e.2.1 u v then (e.1, e.2.1, e.2.2 + d) :: rest
    else e :: incEdgeList rest u v d

/-- `G.add_node(c)`. -/
def addNode (G : Graph α) (c : α) : Graph α :=
  { G with nodes := addNodeList G.nodes c }

/-- `G.add_edge(u, v, weight=w)`: adds missing endpoints as nodes and sets
the edge weight to `w` (overwriting an existing edge's weight). -/
def addEdge (G : Graph α) (u v : α) (w : Int) : Graph α :=
  { nodes := addNodeList (addNodeList G.nodes u) v
    edges := setEdgeList G.edges u v w }

/-- `G[u][v]["weight"] += d`. -/
def incEdge (G : Graph α) (u v : α) (d : Int) : Graph α :=
  { G with edges := incEdgeList G.edges u v d }

/-- Weight lookup on a graph. -/
def findEdge (G : Graph α) (u v : α) : Option Int :=
  lookupW G.edges u v

/-- The body of the innermost loop (src/main.py:140-145):
`if character != character2: add_edge(..., weight=1); weight += 1`
`else: add_edge(..., weight=0); weight += 0`. -/
def processPair (G : Graph α) (c1 c2 : α) : Graph α :=
  if c1 ≠ c2 then incEdge (addEdge G c1 c2 1) c1 c2 1
  else incEdge (addEdge G c1 c2 0) c1 c2 0

/-- `for character2 in chapter_df["character"].unique(): ...` -/
def pairLoop (c1 : α) (G : Graph α) : List α → Graph α
  | [] => G
  | c2 :: rest => pairLoop c1 (processPair G c1 c2) rest

/-- One iteration of the `character` loop (src/main.py:137-145):
`G.add_node(character)` followed by the inner loop over all unique
characters of the chapter. -/
def processChar (chars : List α) (G : Graph α) (c1 : α) : Graph α :=
  pairLoop c1 (addNode G c1) chars

/-- `for character in chapter_df["character"].unique(): ...` -/
def charLoop (chars : List α) (G : Graph α) : List α → Graph α
  | [] => G
  | c1 :: rest => charLoop chars (processChar chars G c1) rest

/-- Processing of one chapter group: the character loop runs over the
chapter's distinct characters. -/
def processChapter (G : Graph α) (chars : List α) : Graph α :=
  charLoop chars G chars

/-- `characters_df["chapter"].unique()`: the distinct chapter values. -/
def uniqueChapters (rows : List Row) : List Int :=
  (rows.map (fun r => r.chapter)).dedup

/-- `chapter_df["character"].unique()` where
`chapter_df = characters_df.filter(pl.col("chapter") == chapter)`:
the distinct characters of one chapter. -/
def chapterChars (rows : List Row) (ch : Int) : List String :=
  ((rows.filter (fun r => r.chapter = ch)).map (fun r => r.character)).dedup

/-- `for chapter in characters_df["chapter"].unique(): ...` -/
def chapterLoop (rows : List Row) (G : Graph String) : List Int → Graph String
  | [] => G
  | ch :: rest => chapterLoop rows (processChapter G (chapterChars rows ch)) rest

/-- `create_data_for_character_appearance_network` (src/main.py:128-147):
builds the co-occurrence graph from the rows. -/
def create_data_for_character_appearance_network (rows : List Row) : Graph String :=
  chapterLoop rows ⟨[], []⟩ (uniqueChapters rows)

/-- `G.degree(n)` neighbor list: the other endpoints of edges incident to
`n` (networkx adjacency keys; includes `n` itself when a self-loop exists).
Every edge endpoint is in `G.nodes` because `add_edge` inserts endpoints. -/
def neighbors (G : Graph α) (n : α) : List α :=
  G.nodes.filter (fun m => (findEdge G n m).isSome)

/-- `G.degree(n)` for an undirected networkx graph:
`len(adj[n]) + (1 if n in adj[n] else 0)` — a self-loop counts twice. -/
def degree (G : Graph α) (n : α) : Nat :=
  (neighbors G n).length + (if (findEdge G n n).isSome then 1 else 0)

/-- `degree_sequence = [d for n, d in G.degree()]` (src/main.py:169). -/
def degreeSequence (G : Graph α) : List Nat :=
  G.nodes.map (degree G)

/-- `degree_count = {x: degree_sequence.count(x) for x in set(degree_sequence)}`
(src/main.py:170), as an association list in first-occurrence order. -/
def degreeCount (G : Graph α) : List (Nat × Nat) :=
  (degreeSequence G).dedup.map (fun x => (x, (degreeSequence G).count x))

/-- `Average degree: sum(degree_sequence) / len(degree_sequence)`
(src/main.py:186), as exact rational division. -/
def averageDegree (G : Graph α) : ℚ :=
  ((degreeSequence G).sum : ℚ) / ((degreeSequence G).length : ℚ)

/-- Python `max(iterable, key=value)` over an association list: the first
entry with the strictly greatest value (Python keeps the earliest maximum). -/
def maxByVal {β : Type} (l : List (β × Nat)) : Option (β × Nat) :=
  l.foldl (fun acc p =>
    match acc with
    | none => some p
    | some q => if p.2 > q.2 then some p else some q) none

/-- The runtime errors the metric code can raise on line 174 and 186 of
src/main.py, plus the `EmptyGraph` error the spec demands (which the code
never raises). -/
inductive MetricsError where
  | emptyGraph
  | valueErrorEmptyMax
  | zeroDivision
deriving DecidableEq, Repr

/-- The values reported by `plot_degree_distribution` (src/main.py:167-192). -/
structure Metrics where
  distribution : List (Nat × Nat)
  mostCommonDegree : Nat
  totalNodes : Nat
  totalEdges : Nat
  avgDegree : ℚ
  maxDegree : Nat
  highestNode : String
  highestNodeNeighbors : List String
deriving DecidableEq, Repr

/-- The metric computations of `plot_degree_distribution`
(src/main.py:167-192), in source order.  On an empty graph the first failing
operation is `max(degree_count, key=degree_count.get)` on line 174, which
raises `ValueError: max() arg is an empty sequence`; the division on line
186 would raise ZeroDivisionError but is never reached. -/
def plot_degree_distribution (G : Graph String) : Except MetricsError Metrics :=
  let seq := degreeSequence G
  let dc := degreeCount G
  match maxByVal dc with
  | none => .error .valueErrorEmptyMax
  | some mc =>
    if seq.length = 0 then .error .zeroDivision
    else
      match maxByVal (G.nodes.map (fun n => (n, degree G n))) with
      | none => .error .valueErrorEmptyMax
      | some hi =>
        .ok { distribution := dc
              mostCommonDegree := mc.1
              totalNodes := G.nodes.length
              totalEdges := G.edges.length
              avgDegree := averageDegree G
              maxDegree := seq.foldl max 0
              highestNode := hi.1
              highestNodeNeighbors := neighbors G hi.1 }

/-- A raw builder row as polars sees it before any cleaning: either field may
be null. -/
structure NRow where
  chapter : Option Int
  character : Option String
deriving DecidableEq, Repr

/-- `characters_df["chapter"].unique()` when the chapter column contains
nulls: null is one of the distinct values. -/
def uniqueChaptersOpt (rows : List NRow) : List (Option Int) :=
  (rows.map (fun r => r.chapter)).dedup

/-- `characters_df.filter(pl.col("chapter") == chapter)["character"].unique()`
with polars null semantics: comparison with a null literal is null, which
filters out every row, so the null chapter group is empty; a null character
survives `unique()` as a null value. -/
def chapterCharsOpt (rows : List NRow) (ch : Option Int) : List (Option String) :=
  match ch with
  | none => []
  | some c =>
    ((rows.filter (fun r => r.chapter = some c)).map (fun r => r.character)).dedup

/-- The error a networkx (≥ 2.0) node operation can raise on a null value:
`add_node` and `add_edge` both guard `if node is None: raise
ValueError("None cannot be a node")`. -/
inductive NxError where
  | noneIsNotANode
deriving DecidableEq, Repr

/-- `G.add_node(c)` for a possibly-null value: networkx raises
`ValueError("None cannot be a node")` on `None`. -/
def addNodeOpt (G : Graph (Option String)) (c : Option String) :
    Except NxError (Graph (Option String)) :=
  match c with
  | none => .error .noneIsNotANode
  | some _ => .ok (addNode G c)

/-- `G.add_edge(u, v, weight=w)` for possibly-null endpoints: networkx
raises `ValueError("None cannot be a node")` when either endpoint is
`None`. -/
def addEdgeOpt (G : Graph (Option String)) (u v : Option String) (w : Int) :
    Except NxError (Graph (Option String)) :=
  match u, v with
  | none, _ => .error .noneIsNotANode
  | _, none => .error .noneIsNotANode
  | some _, some _ => .ok (addEdge G u v w)

/-- The innermost loop body (src/main.py:140-145) on possibly-null
characters: `add_edge` (which rejects `None`) then the weight increment. -/
def processPairOpt (G : Graph (Option String)) (c1 c2 : Option String) :
    Except NxError (Graph (Option String)) :=
  if c1 ≠ c2 then (addEdgeOpt G c1 c2 1).map (fun g => incEdge g c1 c2 1)
  else (addEdgeOpt G c1 c2 0).map (fun g => incEdge g c1 c2 0)

/-- `for character2 in ...` over possibly-null characters; a raised
ValueError aborts the run. -/
def pairLoopOpt (c1 : Option String) (G : Graph (Option String)) :
    List (Option String) → Except NxError (Graph (Option String))
  | [] => .ok G
  | c2 :: rest =>
    match processPairOpt G c1 c2 with
    | .error e => .error e
    | .ok g => pairLoopOpt c1 g rest

/-- One `character` iteration (src/main.py:137-145) on possibly-null
characters: `G.add_node(character)` (which rejects `None`) then the inner
loop. -/
def processCharOpt (chars : List (Option String)) (G : Graph (Option String))
    (c1 : Option String) : Except NxError (Graph (Option String)) :=
  match addNodeOpt G c1 with
  | .error e => .error e
  | .ok g => pairLoopOpt c1 g chars

/-- `for character in ...` over the chapter's possibly-null characters. -/
def charLoopOpt (chars : List (Option String)) (G : Graph (Option String)) :
    List (Option String) → Except NxError (Graph (Option String))
  | [] => .ok G
  | c1 :: rest =>
    match processCharOpt chars G c1 with
    | .error e => .error e
    | .ok g => charLoopOpt chars g rest

/-- The chapter loop of the builder over possibly-null rows. -/
def chapterLoopOpt (rows : List NRow) (G : Graph (Option String)) :
    List (Option Int) → Except NxError (Graph (Option String))
  | [] => .ok G
  | ch :: rest =>
    match charLoopOpt (chapterCharsOpt rows ch) G (chapterCharsOpt rows ch) with
    | .error e => .error e
    | .ok g => chapterLoopOpt rows g rest

/-- `create_data_for_character_appearance_network` run on a dataframe whose
`chapter`/`character` fields may be null: the same source loops
(src/main.py:128-147) with polars null-comparison semantics and the
networkx `None`-node guard.  It performs no validation of its own and never
raises InvalidInput; the only error it can surface is networkx's
`ValueError("None cannot be a node")` when a null character reaches
`add_node`/`add_edge`. -/
def create_network_opt (rows : List NRow) :
    Except NxError (Graph (Option String)) :=
  chapterLoopOpt rows ⟨[], []⟩ (uniqueChaptersOpt rows)

/-- One chapter-metadata row (`chapters.csv`). -/
structure ChapterRec where
  chapter : Int
  volume : Int
  pages : Int
  date : String
deriving DecidableEq, Repr

/-- One character-appearance row of `characters_df` after chapter/episode
extraction in `main` (src/main.py:201-206): the regex extraction is nullable. -/
structure AppRow where
  character : String
  chapter : Option Int
  episode : Option Int
deriving DecidableEq, Repr

/-- `characters_df.join(chapters_df, on="chapter", how="left")`
(src/main.py:209): every left row is kept; a row joins with every chapter
record of equal chapter number, and gets null metadata when its chapter is
null (polars does not join on nulls) or matches no chapter record. -/
def joinLeft (apps : List AppRow) (chaps : List ChapterRec) :
    List (AppRow × Option ChapterRec) :=
  apps.flatMap (fun a =>
    match a.chapter with
    | none => [(a, none)]
    | some ch =>
      match chaps.filter (fun c => c.chapter = ch) with
      | [] => [(a, none)]
      | ms => ms.map (fun c => (a, some c)))

/-- `df.drop_nulls("chapter")` (src/main.py:210) applied to the join result:
drops the rows whose (left) chapter value is null. -/
def dropNullChapter (df : List (AppRow × Option ChapterRec)) :
    List (AppRow × Option ChapterRec) :=
  df.filter (fun p => p.1.chapter.isSome)

/-- The joined dataframe of `main` (src/main.py:209-210). -/
def mainJoined (apps : List AppRow) (chaps : List ChapterRec) :
    List (AppRow × Option ChapterRec) :=
  dropNullChapter (joinLeft apps chaps)

/-- Does character `c` appear in some row? (This is exactly the node set of
the built graph.) -/
def appears (rows : List Row) (c : String) : Prop :=
  ∃ r ∈ rows, r.character = c

/-- Do `a` and `b` appear in a common chapter? (`a = b` is allowed, in which
case this says `a` appears at all.) -/
def coOccur (rows : List Row) (a b : String) : Prop :=
  ∃ ch ∈ uniqueChapters rows, a ∈ chapterChars rows ch ∧ b ∈ chapterChars rows ch

instance {rows : List Row} {c : String} : Decidable (appears rows c) := by
  unfold appears; infer_instance

instance {rows : List Row} {a b : String} : Decidable (coOccur rows a b) := by
  unfold coOccur; infer_instance

/-- Number of distinct chapters in which both `a` and `b` appear. -/
def sharedChapterCount (rows : List Row) (a b : String) : Nat :=
  ((uniqueChapters rows).filter
    (fun ch => (chapterChars rows ch).contains a ∧ (chapterChars rows ch).contains b)).length

/-- The distinct character names of the input rows. -/
def allCharacters (rows : List Row) : List String :=
  (rows.map (fun r => r.character)).dedup

/-- The spec's worked example: chapter 1 has characters {A, B, C} and
chapter 2 has {A, B}. -/
def exampleRows : List Row :=
  [⟨1, "A"⟩, ⟨1, "B"⟩, ⟨1, "C"⟩, ⟨2, "A"⟩, ⟨2, "B"⟩]

/-- Input in which characters A and B share three distinct chapters. -/
def threeSharedRows : List Row :=
  [⟨1, "A"⟩, ⟨1, "B"⟩, ⟨2, "A"⟩, ⟨2, "B"⟩, ⟨3, "A"⟩, ⟨3, "B"⟩]

/-! ### Lemmas about unordered-pair matching -/

lemma samePair_refl (a b : α) : samePair a b a b :=
  Or.inl ⟨rfl, rfl⟩

lemma samePair_symm {a b u v : α} (h : samePair a b u v) : samePair u v a b := by
  rcases h with ⟨rfl, rfl⟩ | ⟨rfl, rfl⟩
  · exact Or.inl ⟨rfl, rfl⟩
  · exact Or.inr ⟨rfl, rfl⟩

lemma samePair_trans {x y u v a b : α} (h1 : samePair x y u v) (h2 : samePair u v a b) :
    samePair x y a b := by
  rcases h1 with ⟨rfl, rfl⟩ | ⟨rfl, rfl⟩ <;> rcases h2 with ⟨rfl, rfl⟩ | ⟨rfl, rfl⟩ <;>
    simp [samePair]

lemma samePair_eq_iff {a b u v : α} (h : samePair a b u v) : a = b ↔ u = v := by
  rcases h with ⟨rfl, rfl⟩ | ⟨rfl, rfl⟩
  · exact Iff.rfl
  · exact eq_comm

lemma samePair_mem_iff {a b : α} {l : List α} :
    (∃ c1 ∈ l, ∃ c2 ∈ l, samePair a b c1 c2) ↔ a ∈ l ∧ b ∈ l := by
  constructor
  · rintro ⟨c1, h1, c2, h2, ⟨rfl, rfl⟩ | ⟨rfl, rfl⟩⟩
    · exact ⟨h1, h2⟩
    · exact ⟨h2, h1⟩
  · rintro ⟨ha, hb⟩
    exact ⟨a, ha, b, hb, samePair_refl a b⟩

/-! ### Lemmas about the edge-list primitives -/

lemma lookupW_setEdgeList (es : List (α × α × Int)) (u v a b : α) (w : Int) :
    lookupW (setEdgeList es u v w) a b =
      if samePair a b u v then some w else lookupW es a b := by
  induction es with
  | nil =>
    by_cases h : samePair a b u v
    · rw [if_pos h]
      have : samePair u v a b := samePair_symm h
      simp [setEdgeList, lookupW, this]
    · rw [if_neg h]
      have : ¬ samePair u v a b := fun hc => h (samePair_symm hc)
      simp [setEdgeList, lookupW, this]
  | cons e rest ih =>
    by_cases hm : samePair e.1 e.2.1 u v
    · have hs : setEdgeList (e :: rest) u v w = (e.1, e.2.1, w) :: rest := by
        simp [setEdgeList, hm]
      rw [hs]
      by_cases h : samePair a b u v
      · have he : samePair e.1 e.2.1 a b := samePair_trans hm (samePair_symm h)
        simp [lookupW, he, h]
      · have he : ¬ samePair e.1 e.2.1 a b := by
          intro hc
          exact h (samePair_trans (samePair_symm hc) hm)
        simp [lookupW, he, h]
    · have hs : setEdgeList (e :: rest) u v w = e :: setEdgeList rest u v w := by
        simp [setEdgeList, hm]
      rw [hs]
      by_cases he : samePair e.1 e.2.1 a b
      · have h : ¬ samePair a b u v := by
          intro hc
          exact hm (samePair_trans he hc)
        simp [lookupW, he, h]
      · simp [lookupW, he, ih]

lemma lookupW_incEdgeList (es : List (α × α × Int)) (u v a b : α) (d : Int) :
    lookupW (incEdgeList es u v d) a b =
      if samePair a b u v then (lookupW es u v).map (· + d) else lookupW es a b := by
  induction es with
  | nil => by_cases h : samePair a b u v <;> simp [incEdgeList, lookupW, h]
  | cons e rest ih =>
    by_cases hm : samePair e.1 e.2.1 u v
    · have hs : incEdgeList (e :: rest) u v d = (e.1, e.2.1, e.2.2 + d) :: rest := by
        simp [incEdgeList, hm]
      rw [hs]
      by_cases h : samePair a b u v
      · have he : samePair e.1 e.2.1 a b := samePair_trans hm (samePair_symm h)
        simp [lookupW, he, h, hm]
      · have he : ¬ samePair e.1 e.2.1 a b := by
          intro hc
          exact h (samePair_trans (samePair_symm hc) hm)
        simp [lookupW, he, h]
    · have hs : incEdgeList (e :: rest) u v d = e :: incEdgeList rest u v d := by
        simp [incEdgeList, hm]
      rw [hs]
      by_cases he : samePair e.1 e.2.1 a b
      · have h : ¬ samePair a b u v := by
          intro hc
          exact hm (samePair_trans he hc)
        simp [lookupW, he, h]
      · by_cases h : samePair a b u v <;> simp [lookupW, he, ih, h, hm]

/-! ### Effect of one pair-processing step -/

lemma findEdge_addEdge (G : Graph α) (u v a b : α) (w : Int) :
    findEdge (addEdge G u v w) a b =
      if samePair a b u v then some w else findEdge G a b :=
  lookupW_setEdgeList G.edges u v a b w

lemma findEdge_incEdge (G : Graph α) (u v a b : α) (d : Int) :
    findEdge (incEdge G u v d) a b =
      if samePair a b u v then (findEdge G u v).map (· + d) else findEdge G a b :=
  lookupW_incEdgeList G.edges u v a b d

lemma findEdge_processPair (G : Graph α) (c1 c2 a b : α) :
    findEdge (processPair G c1 c2) a b =
      if samePair a b c1 c2 then some (if c1 = c2 then 0 else 2) else findEdge G a b := by
  unfold processPair
  by_cases hc : c1 = c2
  · subst hc
    simp only [ne_eq, not_true_eq_false, if_neg, if_false]
    rw [findEdge_incEdge, findEdge_addEdge, findEdge_addEdge]
    by_cases h : samePair a b c1 c1 <;> simp [h, samePair_refl]
  · simp only [ne_eq, hc, not_false_eq_true, if_true]
    rw [findEdge_incEdge, findEdge_addEdge, findEdge_addEdge]
    by_cases h : samePair a b c1 c2 <;> simp [h, hc, samePair_refl]

lemma nodes_processPair (G : Graph α) (c1 c2 : α) :
    (processPair G c1 c2).nodes = addNodeList (addNodeList G.nodes c1) c2 := by
  unfold processPair
  by_cases hc : c1 = c2 <;> simp [hc, incEdge, addEdge]

lemma mem_addNodeList {a c : α} {ns : List α} :
    a ∈ addNodeList ns c ↔ a ∈ ns ∨ a = c := by
  unfold addNodeList
  by_cases h : c ∈ ns
  · rw [if_pos h]
    constructor
    · exact Or.inl
    · rintro (ha | rfl)
      · exact ha
      · exact h
  · rw [if_neg h]
    simp

/-! ### Effect of the inner character2 loop -/

lemma findEdge_pairLoop (L : List α) (c1 a b : α) (G : Graph α) :
    findEdge (pairLoop c1 G L) a b =
      if ∃ c2 ∈ L, samePair a b c1 c2 then some (if a = b then 0 else 2)
      else findEdge G a b := by
  induction L generalizing G with
  | nil => simp [pairLoop]
  | cons c2 rest ih =>
    show findEdge (pairLoop c1 (processPair G c1 c2) rest) a b = _
    rw [ih]
    by_cases hrest : ∃ x ∈ rest, samePair a b c1 x
    · have hcons : ∃ x ∈ c2 :: rest, samePair a b c1 x := by
        obtain ⟨x, hx, hs⟩ := hrest
        exact ⟨x, List.mem_cons_of_mem _ hx, hs⟩
      rw [if_pos hrest, if_pos hcons]
    · rw [if_neg hrest, findEdge_processPair]
      by_cases hc : samePair a b c1 c2
      · have hcons : ∃ x ∈ c2 :: rest, samePair a b c1 x :=
          ⟨c2, List.mem_cons_self _ _, hc⟩
        rw [if_pos hc, if_pos hcons]
        have hiff := samePair_eq_iff hc
        by_cases hab : a = b
        · rw [if_pos (hiff.mp hab), if_pos hab]
        · rw [if_neg (fun h => hab (hiff.mpr h)), if_neg hab]
      · have hcons : ¬ ∃ x ∈ c2 :: rest, samePair a b c1 x := by
          rintro ⟨x, hx, hs⟩
          rcases List.mem_cons.mp hx with rfl | hx
          · exact hc hs
          · exact hrest ⟨x, hx, hs⟩
        rw [if_neg hc, if_neg hcons]

lemma mem_nodes_pairLoop (L : List α) (c1 a : α) (G : Graph α) :
    a ∈ (pairLoop c1 G L).nodes ↔ a ∈ G.nodes ∨ (L ≠ [] ∧ a = c1) ∨ a ∈ L := by
  induction L generalizing G with
  | nil => simp [pairLoop]
  | cons c2 rest ih =>
    show a ∈ (pairLoop c1 (processPair G c1 c2) rest).nodes ↔ _
    rw [ih, nodes_processPair]
    simp only [mem_addNodeList, List.mem_cons]
    constructor
    · rintro (((h | rfl) | rfl) | ⟨-, rfl⟩ | h) <;> tauto
    · rintro (h | ⟨-, rfl⟩ | (rfl | h)) <;> tauto

lemma mem_nodes_processChar (chars : List α) (G : Graph α) (c1 a : α) :
    a ∈ (processChar chars G c1).nodes ↔ a ∈ G.nodes ∨ a = c1 ∨ a ∈ chars := by
  unfold processChar
  rw [mem_nodes_pairLoop]
  simp only [addNode, mem_addNodeList]
  constructor
  · rintro ((h | rfl) | ⟨-, rfl⟩ | h) <;> tauto
  · rintro (h | rfl | h) <;> tauto

lemma findEdge_processChar (chars : List α) (G : Graph α) (c1 a b : α) :
    findEdge (processChar chars G c1) a b =
      if ∃ c2 ∈ chars, samePair a b c1 c2 then some (if a = b then 0 else 2)
      else findEdge G a b := by
  unfold processChar
  rw [findEdge_pairLoop]
  rfl

lemma findEdge_charLoop (chars : List α) (P : List α) (a b : α) (G : Graph α) :
    findEdge (charLoop chars G P) a b =
      if ∃ c1 ∈ P, ∃ c2 ∈ chars, samePair a b c1 c2 then some (if a = b then 0 else 2)
      else findEdge G a b := by
  induction P generalizing G with
  | nil => simp [charLoop]
  | cons c1 rest ih =>
    show findEdge (charLoop chars (processChar chars G c1) rest) a b = _
    rw [ih]
    by_cases hrest : ∃ x ∈ rest, ∃ c2 ∈ chars, samePair a b x c2
    · have hcons : ∃ x ∈ c1 :: rest, ∃ c2 ∈ chars, samePair a b x c2 := by
        obtain ⟨x, hx, hs⟩ := hrest
        exact ⟨x, List.mem_cons_of_mem _ hx, hs⟩
      rw [if_pos hrest, if_pos hcons]
    · rw [if_neg hrest, findEdge_processChar]
      by_cases hc : ∃ c2 ∈ chars, samePair a b c1 c2
      · have hcons : ∃ x ∈ c1 :: rest, ∃ c2 ∈ chars, samePair a b x c2 :=
          ⟨c1, List.mem_cons_self _ _, hc⟩
        rw [if_pos hc, if_pos hcons]
      · have hcons : ¬ ∃ x ∈ c1 :: rest, ∃ c2 ∈ chars, samePair a b x c2 := by
          rintro ⟨x, hx, hs⟩
          rcases List.mem_cons.mp hx with rfl | hx
          · exact hc hs
          · exact hrest ⟨x, hx, hs⟩
        rw [if_neg hc, if_neg hcons]

lemma mem_nodes_charLoop (chars : List α) (P : List α) (a : α) (G : Graph α) :
    a ∈ (charLoop chars G P).nodes ↔ a ∈ G.nodes ∨ a ∈ P ∨ (P ≠ [] ∧ a ∈ chars) := by
  induction P generalizing G with
  | nil => simp [charLoop]
  | cons c1 rest ih =>
    show a ∈ (charLoop chars (processChar chars G c1) rest).nodes ↔ _
    rw [ih, mem_nodes_processChar]
    simp only [List.mem_cons]
    constructor
    · rintro ((h | rfl | h) | h | ⟨-, h⟩) <;> tauto
    · rintro (h | (rfl | h) | ⟨-, h⟩) <;> tauto

lemma findEdge_processChapter (chars : List α) (a b : α) (G : Graph α) :
    findEdge (processChapter G chars) a b =
      if a ∈ chars ∧ b ∈ chars then some (if a = b then 0 else 2)
      else findEdge G a b := by
  unfold processChapter
  rw [findEdge_charLoop]
  by_cases h : a ∈ chars ∧ b ∈ chars
  · rw [if_pos (samePair_mem_iff.mpr h), if_pos h]
  · rw [if_neg (fun hx => h (samePair_mem_iff.mp hx)), if_neg h]

lemma mem_nodes_processChapter (chars : List α) (a : α) (G : Graph α) :
    a ∈ (processChapter G chars).nodes ↔ a ∈ G.nodes ∨ a ∈ chars := by
  unfold processChapter
  rw [mem_nodes_charLoop]
  constructor
  · rintro (h | h | ⟨-, h⟩) <;> tauto
  · rintro (h | h)
    · exact Or.inl h
    · exact Or.inr (Or.inl h)

lemma findEdge_chapterLoop (rows : List Row) (C : List Int) (a b : String)
    (G : Graph String) :
    findEdge (chapterLoop rows G C) a b =
      if ∃ ch ∈ C, a ∈ chapterChars rows ch ∧ b ∈ chapterChars rows ch then
        some (if a = b then 0 else 2)
      else findEdge G a b := by
  induction C generalizing G with
  | nil => simp [chapterLoop]
  | cons ch rest ih =>
    show findEdge (chapterLoop rows (processChapter G (chapterChars rows ch)) rest) a b = _
    rw [ih]
    by_cases hrest : ∃ x ∈ rest, a ∈ chapterChars rows x ∧ b ∈ chapterChars rows x
    · have hcons : ∃ x ∈ ch :: rest, a ∈ chapterChars rows x ∧ b ∈ chapterChars rows x := by
        obtain ⟨x, hx, hs⟩ := hrest
        exact ⟨x, List.mem_cons_of_mem _ hx, hs⟩
      rw [if_pos hrest, if_pos hcons]
    · rw [if_neg hrest, findEdge_processChapter]
      by_cases hc : a ∈ chapterChars rows ch ∧ b ∈ chapterChars rows ch
      · have hcons : ∃ x ∈ ch :: rest, a ∈ chapterChars rows x ∧ b ∈ chapterChars rows x :=
          ⟨ch, List.mem_cons_self _ _, hc⟩
        rw [if_pos hc, if_pos hcons]
      · have hcons : ¬ ∃ x ∈ ch :: rest, a ∈ chapterChars rows x ∧ b ∈ chapterChars rows x := by
          rintro ⟨x, hx, hs⟩
          rcases List.mem_cons.mp hx with rfl | hx
          · exact hc hs
          · exact hrest ⟨x, hx, hs⟩
        rw [if_neg hc, if_neg hcons]

lemma mem_nodes_chapterLoop (rows : List Row) (C : List Int) (a : String)
    (G : Graph String) :
    a ∈ (chapterLoop rows G C).nodes ↔
      a ∈ G.nodes ∨ ∃ ch ∈ C, a ∈ chapterChars rows ch := by
  induction C generalizing G with
  | nil => simp [chapterLoop]
  | cons ch rest ih =>
    show a ∈ (chapterLoop rows (processChapter G (chapterChars rows ch)) rest).nodes ↔ _
    rw [ih, mem_nodes_processChapter]
    constructor
    · rintro ((h | h) | ⟨x, hx, hs⟩)
      · exact Or.inl h
      · exact Or.inr ⟨ch, List.mem_cons_self _ _, h⟩
      · exact Or.inr ⟨x, List.mem_cons_of_mem _ hx, hs⟩
    · rintro (h | ⟨x, hx, hs⟩)
      · exact Or.inl (Or.inl h)
      · rcases List.mem_cons.mp hx with rfl | hx
        · exact Or.inl (Or.inr hs)
        · exact Or.inr ⟨x, hx, hs⟩

/-! ### Characterization of the built graph -/

lemma mem_chapterChars {rows : List Row} {ch : Int} {c : String} :
    c ∈ chapterChars rows ch ↔ ∃ r ∈ rows, r.chapter = ch ∧ r.character = c := by
  simp [chapterChars, List.mem_dedup, List.mem_map, List.mem_filter]
  constructor
  · rintro ⟨r, ⟨hr, hch⟩, rfl⟩
    exact ⟨r, hr, hch, rfl⟩
  · rintro ⟨r, hr, hch, rfl⟩
    exact ⟨r, ⟨hr, hch⟩, rfl⟩

lemma mem_uniqueChapters {rows : List Row} {ch : Int} :
    ch ∈ uniqueChapters rows ↔ ∃ r ∈ rows, r.chapter = ch := by
  simp [uniqueChapters, List.mem_dedup, List.mem_map]

lemma mem_allCharacters {rows : List Row} {c : String} :
    c ∈ allCharacters rows ↔ appears rows c := by
  simp [allCharacters, appears, List.mem_dedup, List.mem_map]

lemma coOccur_iff {rows : List Row} {a b : String} :
    coOccur rows a b ↔
      ∃ ch, a ∈ chapterChars rows ch ∧ b ∈ chapterChars rows ch := by
  unfold coOccur
  constructor
  · rintro ⟨ch, -, h⟩
    exact ⟨ch, h⟩
  · rintro ⟨ch, ha, hb⟩
    refine ⟨ch, ?_, ha, hb⟩
    obtain ⟨r, hr, hch, -⟩ := mem_chapterChars.mp ha
    exact mem_uniqueChapters.mpr ⟨r, hr, hch⟩

lemma coOccur_self {rows : List Row} {c : String} :
    coOccur rows c c ↔ appears rows c := by
  rw [coOccur_iff]
  constructor
  · rintro ⟨ch, hc, -⟩
    obtain ⟨r, hr, -, hchar⟩ := mem_chapterChars.mp hc
    exact ⟨r, hr, hchar⟩
  · rintro ⟨r, hr, hchar⟩
    have : c ∈ chapterChars rows r.chapter := mem_chapterChars.mpr ⟨r, hr, rfl, hchar⟩
    exact ⟨r.chapter, this, this⟩

/-- Closed form for every edge weight of the built graph: a pair of distinct
co-occurring characters always has weight 2, a self-loop of an appearing
character always has weight 0, and no other edge exists. -/
lemma findEdge_create (rows : List Row) (a b : String) :
    findEdge (create_data_for_character_appearance_network rows) a b =
      if coOccur rows a b then some (if a = b then 0 else 2) else none := by
  unfold create_data_for_character_appearance_network
  rw [findEdge_chapterLoop]
  by_cases h : ∃ ch ∈ uniqueChapters rows, a ∈ chapterChars rows ch ∧ b ∈ chapterChars rows ch
  · rw [if_pos h, if_pos (show coOccur rows a b from h)]
  · rw [if_neg h, if_neg (show ¬ coOccur rows a b from h)]
    rfl

/-- Closed form for the node set of the built graph: exactly the characters
appearing in at least one row. -/
lemma mem_nodes_create (rows : List Row) (c : String) :
    c ∈ (create_data_for_character_appearance_network rows).nodes ↔ appears rows c := by
  unfold create_data_for_character_appearance_network
  rw [mem_nodes_chapterLoop]
  simp only [List.not_mem_nil, false_or]
  constructor
  · rintro ⟨ch, -, hc⟩
    obtain ⟨r, hr, -, hchar⟩ := mem_chapterChars.mp hc
    exact ⟨r, hr, hchar⟩
  · rintro ⟨r, hr, hchar⟩
    refine ⟨r.chapter, ?_, mem_chapterChars.mpr ⟨r, hr, rfl, hchar⟩⟩
    exact mem_uniqueChapters.mpr ⟨r, hr, rfl⟩

/-! ### The node list never contains duplicates (it models a Python dict) -/

lemma nodup_addNodeList {ns : List α} (c : α) (h : ns.Nodup) : (addNodeList ns c).Nodup := by
  unfold addNodeList
  by_cases hc : c ∈ ns
  · rwa [if_pos hc]
  · rw [if_neg hc, List.nodup_append]
    refine ⟨h, List.nodup_singleton c, ?_⟩
    intro a ha hac
    rw [List.mem_singleton] at hac
    subst hac
    exact hc ha

lemma nodup_nodes_processPair {G : Graph α} (c1 c2 : α) (h : G.nodes.Nodup) :
    (processPair G c1 c2).nodes.Nodup := by
  rw [nodes_processPair]
  exact nodup_addNodeList c2 (nodup_addNodeList c1 h)

lemma nodup_nodes_pairLoop (L : List α) (c1 : α) {G : Graph α} (h : G.nodes.Nodup) :
    (pairLoop c1 G L).nodes.Nodup := by
  induction L generalizing G with
  | nil => exact h
  | cons c2 rest ih => exact ih (nodup_nodes_processPair c1 c2 h)

lemma nodup_nodes_processChar (chars : List α) (c1 : α) {G : Graph α}
    (h : G.nodes.Nodup) : (processChar chars G c1).nodes.Nodup :=
  nodup_nodes_pairLoop chars c1 (nodup_addNodeList c1 h)

lemma nodup_nodes_charLoop (chars P : List α) {G : Graph α} (h : G.nodes.Nodup) :
    (charLoop chars G P).nodes.Nodup := by
  induction P generalizing G with
  | nil => exact h
  | cons c1 rest ih => exact ih (nodup_nodes_processChar chars c1 h)

lemma nodup_nodes_chapterLoop (rows : List Row) (C : List Int) {G : Graph String}
    (h : G.nodes.Nodup) : (chapterLoop rows G C).nodes.Nodup := by
  induction C generalizing G with
  | nil => exact h
  | cons ch rest ih => exact ih (nodup_nodes_charLoop _ _ h)

lemma nodup_nodes_create (rows : List Row) :
    (create_data_for_character_appearance_network rows).nodes.Nodup :=
  nodup_nodes_chapterLoop rows (uniqueChapters rows) List.nodup_nil

/-! ### Degree of an isolated character -/

lemma filter_eq_singleton_of {l : List α} {p : α → Bool} {c : α} (hnd : l.Nodup)
    (hc : c ∈ l) (h : ∀ m ∈ l, p m = true ↔ m = c) : l.filter p = [c] := by
  induction l with
  | nil => cases hc
  | cons x xs ih =>
    rcases List.mem_cons.mp hc with rfl | hcx
    · have hx : p c = true := (h c (List.mem_cons_self _ _)).mpr rfl
      rw [List.filter_cons_of_pos hx]
      have hnil : xs.filter p = [] := by
        rw [List.filter_eq_nil_iff]
        intro m hm hpm
        have hmx : m = c := (h m (List.mem_cons_of_mem _ hm)).mp hpm
        subst hmx
        exact (List.nodup_cons.mp hnd).1 hm
      rw [hnil]
    · have hx : ¬ p x = true := by
        intro ht
        have hxc : x = c := (h x (List.mem_cons_self _ _)).mp ht
        subst hxc
        exact absurd hcx (List.nodup_cons.mp hnd).1
      rw [List.filter_cons_of_neg hx]
      exact ih (List.nodup_cons.mp hnd).2 hcx (fun m hm => h m (List.mem_cons_of_mem _ hm))

/-- An appearing character that co-occurs with no other character still has
networkx degree 2: its own zero-weight self-loop is both a neighbor entry and
the extra self-loop increment. -/
lemma degree_create_isolated (rows : List Row) (c : String) (h1 : appears rows c)
    (h2 : ∀ b ∈ allCharacters rows, b ≠ c → ¬ coOccur rows c b) :
    degree (create_data_for_character_appearance_network rows) c = 2 := by
  have hself : findEdge (create_data_for_character_appearance_network rows) c c = some 0 := by
    rw [findEdge_create, if_pos (coOccur_self.mpr h1)]
    simp
  have hfil : (create_data_for_character_appearance_network rows).nodes.filter
      (fun m => (findEdge (create_data_for_character_appearance_network rows) c m).isSome)
      = [c] := by
    refine filter_eq_singleton_of (nodup_nodes_create rows)
      ((mem_nodes_create rows c).mpr h1) ?_
    intro m hm
    constructor
    · intro hpm
      by_contra hmc
      have hco : coOccur rows c m := by
        rw [findEdge_create] at hpm
        by_cases hco : coOccur rows c m
        · exact hco
        · rw [if_neg hco] at hpm
          simp at hpm
      have hma : m ∈ allCharacters rows :=
        mem_allCharacters.mpr ((mem_nodes_create rows m).mp hm)
      exact h2 m hma hmc hco
    · rintro rfl
      rw [hself]
      rfl
  unfold degree neighbors
  rw [hfil, hself]
  rfl

/-! ### The claims -/

/-- C1.  The spec (and the builder's own comment, src/main.py:133-134) says
edge weights count shared chapters, 1 or 2 per shared chapter applied
consistently.  Evaluating the code on an input where A and B share three
distinct chapters: the shared-chapter count is 3, yet the stored weight is 2
(`add_edge` resets the weight to 1 on every re-add before the single
increment), which is neither 3 nor 6. -/
theorem c1_weight_ignores_shared_chapter_count :
    sharedChapterCount threeSharedRows "A" "B" = 3 ∧
      findEdge (create_data_for_character_appearance_network threeSharedRows) "A" "B"
        = some 2 ∧
      (2 : Int) ≠ 3 ∧ (2 : Int) ≠ 2 * 3 := by
  refine ⟨by decide, by decide, by decide, by decide⟩

/-- C2 counterexample.  The claim says a character that shares no chapter
with any other character has degree 0.  On the input with the single row
(chapter 1, "A"), the code gives "A" degree 2, not 0: `G.degree` counts the
weight-0 self-loop twice. -/
theorem c2_counterexample :
    degree (create_data_for_character_appearance_network [⟨1, "A"⟩]) "A" = 2 ∧
      degree (create_data_for_character_appearance_network [⟨1, "A"⟩]) "A" ≠ 0 := by
  refine ⟨by decide, by decide⟩

/-- C2 amended.  Every node's self-loop contributes exactly 2 to its
networkx degree: a character that appears but co-occurs with no other
character has degree 2 (not 0). -/
theorem c2_self_loop_inflates_degree (rows : List Row) (c : String)
    (h1 : appears rows c)
    (h2 : ∀ b ∈ allCharacters rows, b ≠ c → ¬ coOccur rows c b) :
    degree (create_data_for_character_appearance_network rows) c = 2 :=
  degree_create_isolated rows c h1 h2

/-- C2 witness: the amended theorem applied to the single-row input. -/
theorem c2_witness :
    degree (create_data_for_character_appearance_network [⟨1, "A"⟩]) "A" = 2 :=
  c2_self_loop_inflates_degree [⟨1, "A"⟩] "A" (by decide) (by decide)

/-- C3.  Evaluating the code on the spec's example (chapter 1 = {A,B,C},
chapter 2 = {A,B}): every distinct pair gets weight 2 (not 2/1/1 as the
spec's example says), every degree is 4 (not 2/2/1), and the degree
distribution is {4: 3} (not {2: 2, 1: 1}). -/
theorem c3_example_actual_values :
    findEdge (create_data_for_character_appearance_network exampleRows) "A" "B" = some 2 ∧
    findEdge (create_data_for_character_appearance_network exampleRows) "A" "C" = some 2 ∧
    findEdge (create_data_for_character_appearance_network exampleRows) "B" "C" = some 2 ∧
    degree (create_data_for_character_appearance_network exampleRows) "A" = 4 ∧
    degree (create_data_for_character_appearance_network exampleRows) "B" = 4 ∧
    degree (create_data_for_character_appearance_network exampleRows) "C" = 4 ∧
    degreeCount (create_data_for_character_appearance_network exampleRows) = [(4, 3)] := by
  refine ⟨by decide, by decide, by decide, by decide, by decide, by decide, by decide⟩

/-- C5.  The self-loop of every appearing character has weight exactly 0:
the self branch of the loop re-creates it with weight 0 and adds 0, and the
distinct branch never touches the pair (c, c). -/
theorem c5_self_loop_weight_zero (rows : List Row) (c : String) (h : appears rows c) :
    findEdge (create_data_for_character_appearance_network rows) c c = some 0 := by
  rw [findEdge_create, if_pos (coOccur_self.mpr h)]
  simp

/-- C5 witness: a character repeated in several chapters and several times in
one chapter still has self-loop weight 0. -/
theorem c5_witness :
    findEdge (create_data_for_character_appearance_network
      [⟨1, "A"⟩, ⟨1, "A"⟩, ⟨2, "A"⟩]) "A" "A" = some 0 :=
  c5_self_loop_weight_zero [⟨1, "A"⟩, ⟨1, "A"⟩, ⟨2, "A"⟩] "A" (by decide)

/-- C6.  Every edge between two distinct characters has weight exactly 2,
however many chapters the two characters share: re-adding an existing edge
resets its weight to 1 before the single increment. -/
theorem c6_distinct_edge_weight_always_two (rows : List Row) (a b : String)
    (w : Int) (hab : a ≠ b)
    (h : findEdge (create_data_for_character_appearance_network rows) a b = some w) :
    w = 2 := by
  rw [findEdge_create] at h
  by_cases hco : coOccur rows a b
  · rw [if_pos hco, if_neg hab] at h
    exact (Option.some_inj.mp h).symm
  · rw [if_neg hco] at h
    cases h

/-- C6 witness: on the three-shared-chapters input the A-B edge exists with
weight 2, and the theorem applied there forces that weight to be 2. -/
theorem c6_witness :
    findEdge (create_data_for_character_appearance_network threeSharedRows) "A" "B"
      = some 2 ∧ (2 : Int) = 2 :=
  ⟨by decide, c6_distinct_edge_weight_always_two threeSharedRows "A" "B" 2
    (by decide) (by decide)⟩

/-- C4 counterexample.  The claim says metrics on a zero-node graph fail
with a distinct EmptyGraph error.  On the graph built from empty input the
metric code instead crashes on line 174 with an unguarded
`ValueError: max() arg is an empty sequence`, which is not EmptyGraph. -/
theorem c4_counterexample :
    plot_degree_distribution (create_data_for_character_appearance_network []) =
      .error .valueErrorEmptyMax ∧
    (Except.error .valueErrorEmptyMax : Except MetricsError Metrics) ≠
      .error .emptyGraph := by
  refine ⟨rfl, fun h => ?_⟩
  injection h with h2
  exact MetricsError.noConfusion h2

/-- C4 amended.  Building from empty input does yield a graph with zero
nodes and zero edges without failing; but the metrics on it fail with the
unguarded ValueError from `max()` on an empty sequence (line 174), not with
a distinct EmptyGraph error and not with a division by zero. -/
theorem c4_empty_build_then_value_error :
    (create_data_for_character_appearance_network []).nodes = [] ∧
    (create_data_for_character_appearance_network []).edges = [] ∧
    plot_degree_distribution (create_data_for_character_appearance_network []) =
      .error .valueErrorEmptyMax := by
  refine ⟨rfl, rfl, rfl⟩

/-- C7 counterexample.  The claim says the builder fails with InvalidInput
on a row lacking the character and chapter fields.  On the input consisting
of one all-null row, the builder raises nothing: it runs to completion and
returns the empty graph (the null chapter group matches no rows under
polars null comparison), so no InvalidInput error is ever raised. -/
theorem c7_counterexample :
    create_network_opt [⟨none, none⟩] = .ok ⟨[], []⟩ := by
  rfl

/-- C7 amended.  The builder performs no input validation of its own and
never raises InvalidInput: rows with a null chapter are silently skipped
(the run completes and returns the empty graph), and a row with a chapter
but a null character makes the run crash with networkx's
`ValueError("None cannot be a node")` at `G.add_node` — still not an
InvalidInput error. -/
theorem c7_no_validation :
    create_network_opt [⟨none, none⟩, ⟨none, some "A"⟩] = .ok ⟨[], []⟩ ∧
    create_network_opt [⟨some 1, none⟩] = .error .noneIsNotANode := by
  refine ⟨rfl, rfl⟩

/-- C8 counterexample.  The claim says rows whose chapter has no matching
ChapterRecord are dropped by the join step.  A row with chapter 5 and an
empty chapter table survives `join(how="left")` + `drop_nulls("chapter")`
with null metadata: it is not dropped. -/
theorem c8_counterexample :
    mainJoined [⟨"A", some 5, none⟩] [] = [(⟨"A", some 5, none⟩, none)] := by
  decide

/-- C8 amended.  The left join keeps every appearance row;
`drop_nulls("chapter")` then drops exactly the rows whose own chapter is
null.  A row with a non-null chapter that matches no ChapterRecord is
retained with null metadata, and every retained row has a non-null
chapter. -/
theorem c8_left_join_drop_nulls (apps : List AppRow) (chaps : List ChapterRec)
    (a : AppRow) (ch : Int) (ha : a ∈ apps) (hch : a.chapter = some ch)
    (hm : chaps.filter (fun c => c.chapter = ch) = []) :
    (a, (none : Option ChapterRec)) ∈ mainJoined apps chaps ∧
      ∀ p ∈ mainJoined apps chaps, p.1.chapter ≠ none := by
  constructor
  · unfold mainJoined dropNullChapter
    rw [List.mem_filter]
    constructor
    · unfold joinLeft
      rw [List.mem_flatMap]
      refine ⟨a, ha, ?_⟩
      simp only [hch, hm]
      simp
    · simp [hch]
  · intro p hp hnone
    unfold mainJoined dropNullChapter at hp
    rw [List.mem_filter] at hp
    have h2 := hp.2
    rw [hnone] at h2
    cases h2

/-- C8 witness: the amended theorem applied to one unmatched row and an
empty chapter table. -/
theorem c8_witness :
    ((⟨"A", some 5, none⟩ : AppRow), (none : Option ChapterRec)) ∈
        mainJoined [⟨"A", some 5, none⟩] [] ∧
      ∀ p ∈ mainJoined [⟨"A", some 5, none⟩] ([] : List ChapterRec),
        p.1.chapter ≠ none :=
  c8_left_join_drop_nulls [⟨"A", some 5, none⟩] [] ⟨"A", some 5, none⟩ 5
    (by decide) (by decide) (by decide)

/-- C9.  For a non-empty graph the reported average degree is the sum of
the degrees over exactly the node list used for the degree distribution
(isolated nodes included), divided by the node count: equivalently,
average degree times node count equals the sum of all node degrees. -/
theorem c9_average_degree_over_all_nodes (G : Graph String) (hG : G.nodes ≠ []) :
    averageDegree G * (G.nodes.length : ℚ) =
      (G.nodes.map (fun n => ((degree G n : ℚ)))).sum := by
  have hlen : (G.nodes.length : ℚ) ≠ 0 := by
    have h0 : G.nodes.length ≠ 0 := fun h => hG (List.length_eq_zero.mp h)
    exact_mod_cast h0
  unfold averageDegree degreeSequence
  rw [List.length_map, div_mul_cancel₀ _ hlen, Nat.cast_list_sum, List.map_map]
  rfl

/-- C9 witness: the theorem applied to the graph built from the spec's
example rows (3 nodes, all of degree 4). -/
theorem c9_witness :
    averageDegree (create_data_for_character_appearance_network exampleRows) *
        (((create_data_for_character_appearance_network exampleRows).nodes.length : ℚ)) =
      ((create_data_for_character_appearance_network exampleRows).nodes.map
        (fun n => ((degree (create_data_for_character_appearance_network exampleRows) n
          : ℚ)))).sum :=
  c9_average_degree_over_all_nodes
    (create_data_for_character_appearance_network exampleRows) (by decide)

/-- C10.  The builder is deterministic: its observable output (which
characters are nodes, and every pair's edge weight) is a function of the
input rows alone — even reordering the input rows, as polars `unique()` may,
changes neither the node set nor any edge weight. -/
theorem c10_builder_deterministic (rows1 rows2 : List Row) (h : rows1.Perm rows2) :
    (∀ c, c ∈ (create_data_for_character_appearance_network rows1).nodes ↔
        c ∈ (create_data_for_character_appearance_network rows2).nodes) ∧
      ∀ a b, findEdge (create_data_for_character_appearance_network rows1) a b =
        findEdge (create_data_for_character_appearance_network rows2) a b := by
  have happ : ∀ c, appears rows1 c ↔ appears rows2 c := by
    intro c
    unfold appears
    constructor
    · rintro ⟨r, hr, rfl⟩
      exact ⟨r, h.mem_iff.mp hr, rfl⟩
    · rintro ⟨r, hr, rfl⟩
      exact ⟨r, h.mem_iff.mpr hr, rfl⟩
  have hcc : ∀ ch c, c ∈ chapterChars rows1 ch ↔ c ∈ chapterChars rows2 ch := by
    intro ch c
    rw [mem_chapterChars, mem_chapterChars]
    constructor
    · rintro ⟨r, hr, h1, h2⟩
      exact ⟨r, h.mem_iff.mp hr, h1, h2⟩
    · rintro ⟨r, hr, h1, h2⟩
      exact ⟨r, h.mem_iff.mpr hr, h1, h2⟩
  have hco : ∀ a b, coOccur rows1 a b ↔ coOccur rows2 a b := by
    intro a b
    rw [coOccur_iff, coOccur_iff]
    constructor
    · rintro ⟨ch, h1, h2⟩
      exact ⟨ch, (hcc ch a).mp h1, (hcc ch b).mp h2⟩
    · rintro ⟨ch, h1, h2⟩
      exact ⟨ch, (hcc ch a).mpr h1, (hcc ch b).mpr h2⟩
  constructor
  · intro c
    rw [mem_nodes_create, mem_nodes_create]
    exact happ c
  · intro a b
    rw [findEdge_create, findEdge_create]
    by_cases hc : coOccur rows1 a b
    · rw [if_pos hc, if_pos ((hco a b).mp hc)]
    · rw [if_neg hc, if_neg (fun hx => hc ((hco a b).mpr hx))]

/-- C10 witness: the theorem applied to two orderings of the same two rows,
instantiated at the pair (A, B). -/
theorem c10_witness :
    findEdge (create_data_for_character_appearance_network [⟨1, "A"⟩, ⟨1, "B"⟩]) "A" "B" =
      findEdge (create_data_for_character_appearance_network [⟨1, "B"⟩, ⟨1, "A"⟩]) "A" "B" :=
  (c10_builder_deterministic [⟨1, "A"⟩, ⟨1, "B"⟩] [⟨1, "B"⟩, ⟨1, "A"⟩]
    (by decide)).2 "A" "B"
